import Mathlib

/-!
# Verification of `flip_pancakes.py`

A shallow embedding of the pancake-flipping program in `src/flip_pancakes.py`
together with proofs about it.

Modelling conventions:

* A stack is a `List Char`; the two legal orientation symbols are `'+'` (UP)
  and `'-'` (DOWN), exactly as in the Python source.
* Python exceptions are modelled by `Except PyError`: `flip_char` raises
  `CharacterError` on an illegal character, `fix_stack` raises it when the
  validation regex rejects the input, and indexing an empty string (as
  `first_down` does) raises `IndexError`.
* The `while` loop of `fix_stack` is modelled by the fuel-indexed function
  `fix_loop`; `fix_stack` supplies fuel equal to the stack length, which
  matches the loop's linear iteration bound (proved in `fix_loop_total`:
  the leading UP run grows by at least one element per iteration).  A `none`
  result means the concrete loop would still be running after that many
  iterations.
* The batch mode of `process_input_data_stream` is modelled on the list of
  input lines; its observable output is the list of printed `Case #i: n`
  lines together with the terminating error, if any.
-/

/-- The exceptions the program can raise: the program's own `CharacterError`,
Python's `IndexError` (raised by `items[0]` on an empty string), and Python's
`ValueError` (raised by `int()` on a non-numeric first line). -/
inductive PyError : Type
  | characterError (msg : String)
  | indexError
  | valueError
deriving DecidableEq, Repr

/-- Embedding of `split_items` (src lines 42-54): `items[:num], items[num:]`. -/
def split_items (num : Nat) (items : List Char) : List Char × List Char :=
  (items.take num, items.drop num)

/-- Embedding of `flip_char` (src lines 57-65): invert one character, raising
`CharacterError(char)` on anything other than `'+'` or `'-'`. -/
def flip_char (char : Char) : Except PyError Char :=
  if char = '+' then .ok '-'
  else if char = '-' then .ok '+'
  else .error (.characterError (String.mk [char]))

/-- Embedding of `flip_chars` (src lines 68-71): flip every character,
left to right, propagating the first `CharacterError`. -/
def flip_chars : List Char → Except PyError (List Char)
  | [] => .ok []
  | c :: rest =>
    match flip_char c with
    | .error e => .error e
    | .ok fc =>
      match flip_chars rest with
      | .error e => .error e
      | .ok frest => .ok (fc :: frest)

/-- Embedding of `reverse_items` (src lines 74-77). -/
def reverse_items (items : List Char) : List Char := items.reverse

/-- Embedding of `stack_flip` (src lines 80-94): split off the first `index`
items, reverse and flip them, and prepend them to the unchanged remainder. -/
def stack_flip (index : Nat) (items : List Char) : Except PyError (List Char) :=
  match flip_chars (reverse_items (split_items index items).1) with
  | .error e => .error e
  | .ok flipped_part1 => .ok (flipped_part1 ++ (split_items index items).2)

/-- Embedding of `first_down` (src lines 113-116): `items[0] == '-'`.
Indexing an empty string raises `IndexError`, modelled by `none`. -/
def first_down (items : List Char) : Option Bool :=
  match items with
  | [] => none
  | c :: _ => some (decide (c = '-'))

/-- Embedding of `count_down_items` (src lines 119-126).  The regex
`^(\-+)` matches the maximal leading run of `'-'`, so the count is the
length of the longest `'-'`-prefix (0 when the first item is not `'-'`). -/
def count_down_items (items : List Char) : Nat :=
  (items.takeWhile (fun c => decide (c = '-'))).length

/-- Embedding of `count_up_items` (src lines 129-136), as for
`count_down_items` with the regex `^(\++)`. -/
def count_up_items (items : List Char) : Nat :=
  (items.takeWhile (fun c => decide (c = '+'))).length

/-- Embedding of `all_up` (src lines 139-151): `len(items) == up_count`. -/
def all_up (up_count : Nat) (items : List Char) : Bool :=
  decide (items.length = up_count)

/-- Every character of the list is one of the two legal symbols. -/
def all_legal_chars (items : List Char) : Bool :=
  items.all (fun c => decide (c = '+') || decide (c = '-'))

/-- Embedding of the test `LEGAL_STACK.search(items)` for the regex
`^[\-\+]*$` (src line 17).  In Python, `$` (without `re.MULTILINE`) matches
at the end of the string and also just before a newline that is the last
character, so the regex accepts exactly: strings of legal symbols, and
strings of legal symbols followed by one final newline. -/
def legal_stack (items : List Char) : Bool :=
  all_legal_chars items ||
    (decide (items.getLast? = some '\n') && all_legal_chars items.dropLast)

/-- The initial conditional flip of `fix_stack` (src lines 204-209): if the
first item is DOWN, flip the maximal leading DOWN run and count one flip.
The returned pair is the flip count so far and the current stack. -/
def initial_flip (items : List Char) : Except PyError (Nat × List Char) :=
  match first_down items with
  | none => .error .indexError
  | some true =>
    match stack_flip (count_down_items items) items with
    | .error e => .error e
    | .ok items1 => .ok (1, items1)
  | some false => .ok (0, items)

/-- One iteration of the `while` loop body of `fix_stack` (src lines
214-223): flip the leading UP run, then flip the new leading DOWN run.
(The Python code computes `up_count` just before the loop test; the stack is
unchanged between that computation and its use here, so recomputing it at
the start of the body is the same value.) -/
def loop_body (items : List Char) : Except PyError (List Char) :=
  match stack_flip (count_up_items items) items with
  | .error e => .error e
  | .ok items1 =>
    match stack_flip (count_down_items items1) items1 with
    | .error e => .error e
    | .ok items2 => .ok items2

/-- The `while not finished` loop of `fix_stack` (src lines 211-226),
indexed by fuel.  Each loop body performs two flips, so the flip count grows
by 2 per iteration.  `none` means the fuel was exhausted with the loop still
running. -/
def fix_loop : Nat → Nat → List Char → Option (Except PyError (Nat × List Char))
  | 0, flip_count, items =>
    if all_up (count_up_items items) items then some (.ok (flip_count, items))
    else none
  | fuel + 1, flip_count, items =>
    if all_up (count_up_items items) items then some (.ok (flip_count, items))
    else
      match loop_body items with
      | .error e => some (.error e)
      | .ok items2 => fix_loop fuel (flip_count + 2) items2

/-- Embedding of `fix_stack` (src lines 188-228), additionally exposing the
final value of the local variable `items` next to the returned flip count.
The fuel given to the loop is the stack length, which suffices for every
input that reaches the loop with only legal characters (`fix_loop_total`). -/
def fix_stack_full (items : List Char) : Option (Except PyError (Nat × List Char)) :=
  if legal_stack items then
    match initial_flip items with
    | .error e => some (.error e)
    | .ok (flip_count, items1) => fix_loop items1.length flip_count items1
  else some (.error (.characterError ("Not a legal stack: " ++ String.mk items)))

/-- Embedding of `fix_stack` proper: only the flip count is returned. -/
def fix_stack (items : List Char) : Option (Except PyError Nat) :=
  (fix_stack_full items).map (fun r => r.map Prod.fst)

/-- Whitespace test used to model Python's `str.strip()` (the whitespace
characters that can occur around a line of this program's input). -/
def isSpaceChar (c : Char) : Bool :=
  decide (c = ' ') || decide (c = '\t') || decide (c = '\n') || decide (c = '\r')

/-- Model of `str.strip()`: drop whitespace from both ends of a line. -/
def strip (line : List Char) : List Char :=
  ((line.dropWhile isSpaceChar).reverse.dropWhile isSpaceChar).reverse

/-- Model of `int(line.strip())` for the nonnegative decimal counts the
batch protocol uses; `none` stands for Python's `ValueError`. -/
def parse_int (line : List Char) : Option Nat :=
  let t := strip line
  if !t.isEmpty && t.all (fun c => decide ('0' ≤ c) && decide (c ≤ '9')) then
    some (t.foldl (fun acc c => acc * 10 + (c.toNat - 48)) 0)
  else none

/-- Decimal digit character of `n < 10`. -/
def digitChar (n : Nat) : Char := Char.ofNat (48 + n)

/-- Decimal rendering of a natural number, fuel-indexed so that it is
structurally recursive (`n + 1` units of fuel always suffice). -/
def natToCharsAux : Nat → Nat → List Char
  | 0, _ => []
  | fuel + 1, n =>
    if n < 10 then [digitChar n]
    else natToCharsAux fuel (n / 10) ++ [digitChar (n % 10)]

/-- Decimal rendering of a natural number, as used by `print` formatting. -/
def natToChars (n : Nat) : List Char := natToCharsAux (n + 1) n

/-- One printed batch line `Case #<case>: <flips>` (src line 250). -/
def caseLine (caseNum : Nat) (flips : Nat) : List Char :=
  "Case #".data ++ natToChars caseNum ++ ": ".data ++ natToChars flips

/-- The `for stack_raw in sys.stdin` loop of `process_input_data_stream`
(src lines 242-250): strip each line, fix the stack silently, and print one
`Case` line, stopping (via `sys.exit(0)`) as soon as the 1-based case number
exceeds the declared count.  The result is the list of printed lines
together with the error that aborted the loop, if any; `none` propagates a
`fix_stack` call that exhausted its fuel. -/
def process_lines (count : Nat) : Nat → List (List Char) → Option (List (List Char) × Option PyError)
  | _, [] => some ([], none)
  | caseNum, line :: rest =>
    if count < caseNum + 1 then some ([], none)
    else
      match fix_stack (strip line) with
      | none => none
      | some (.error e) => some ([], some e)
      | some (.ok flips) =>
        match process_lines count (caseNum + 1) rest with
        | none => none
        | some (out, err) => some (caseLine (caseNum + 1) flips :: out, err)

/-- Embedding of `process_input_data_stream` (src lines 231-250): the first
input line is the declared case count, the remaining lines are the stacks. -/
def process_input_data_stream (input : List (List Char)) : Option (List (List Char) × Option PyError) :=
  match input with
  | [] => some ([], some .valueError)
  | first :: rest =>
    match parse_int first with
    | none => some ([], some .valueError)
    | some count => process_lines count 0 rest

/-! ## The specification's greedy algorithm

The following definitions are written from the specification's words
(section 4.1, steps 1-4), not from the source; `fix_stack` is proved to
refine them.  The flip operation is the spec's "reverse of the first `k`
elements with each of those elements' orientation inverted, concatenated
with the unchanged remaining elements". -/

/-- Modelled from the spec (section 3, Orientation): invert one orientation
symbol, `'+'` to `'-'` and `'-'` to `'+'`. -/
def spec_invert (c : Char) : Char := if c = '+' then '-' else '+'

/-- Modelled from the spec (section 3, Flip operation). -/
def spec_flip (k : Nat) (s : List Char) : List Char :=
  ((s.take k).reverse.map spec_invert) ++ s.drop k

/-- Modelled from the spec: the length of the maximal leading run of UP
elements. -/
def spec_up_run (s : List Char) : Nat :=
  (s.takeWhile (fun c => decide (c = '+'))).length

/-- Modelled from the spec: the length of the maximal leading run of DOWN
elements. -/
def spec_down_run (s : List Char) : Nat :=
  (s.takeWhile (fun c => decide (c = '-'))).length

/-- Modelled from the spec (section 4.1, steps 3-4): while the leading UP
run `u` is shorter than the whole sequence, flip the prefix of length `u`,
then flip the new maximal leading DOWN run, counting two flips; stop when
`u` equals the length.  The fuel bounds the number of iterations; the spec
asserts this bound is linear in the sequence length, and the sequence
length itself is shown to suffice. -/
def spec_greedy_loop : Nat → List Char → Option Nat
  | 0, s => if spec_up_run s = s.length then some 0 else none
  | fuel + 1, s =>
    if spec_up_run s = s.length then some 0
    else
      (spec_greedy_loop fuel
          (spec_flip (spec_down_run (spec_flip (spec_up_run s) s))
            (spec_flip (spec_up_run s) s))).map (fun k => k + 2)

/-- Modelled from the spec (section 4.1, step 2 followed by steps 3-4): if
the first element is DOWN, first flip the maximal leading DOWN run, counting
one flip, then run the loop. -/
def spec_greedy (s : List Char) : Option Nat :=
  if s.head? = some '-' then
    (spec_greedy_loop s.length (spec_flip (spec_down_run s) s)).map (fun k => k + 1)
  else
    spec_greedy_loop s.length s

/-! ## Generic list lemmas -/

/-- All elements a `takeWhile` for membership in `a` keeps are equal to `a`,
so the prefix is a replicate of its own length. -/
lemma takeWhile_eq_replicate (a : Char) (s : List Char) :
    s.takeWhile (fun c => decide (c = a)) =
      List.replicate (s.takeWhile (fun c => decide (c = a))).length a := by
  induction s with
  | nil => rfl
  | cons c t ih =>
    by_cases h : c = a
    · subst h
      simp only [List.takeWhile_cons, decide_true_eq_true, if_true, List.length_cons,
        List.replicate_succ]
      exact congrArg (c :: ·) ih
    · simp [List.takeWhile_cons, h]

/-- Taking as many elements as the `takeWhile` prefix has recovers it. -/
lemma take_length_takeWhile (p : Char → Bool) (s : List Char) :
    s.take (s.takeWhile p).length = s.takeWhile p := by
  induction s with
  | nil => rfl
  | cons c t ih =>
    by_cases h : p c
    · simp [List.takeWhile_cons, h, ih]
    · simp [List.takeWhile_cons, h]

/-- Dropping as many elements as the `takeWhile` prefix has yields the
`dropWhile` suffix. -/
lemma drop_length_takeWhile (p : Char → Bool) (s : List Char) :
    s.drop (s.takeWhile p).length = s.dropWhile p := by
  induction s with
  | nil => rfl
  | cons c t ih =>
    by_cases h : p c
    · simp [List.takeWhile_cons, List.dropWhile_cons, h, ih]
    · simp [List.takeWhile_cons, List.dropWhile_cons, h]

/-- The head of the `dropWhile` suffix fails the predicate. -/
lemma dropWhile_head_false (p : Char → Bool) (s : List Char) (c : Char)
    (rest : List Char) (h : s.dropWhile p = c :: rest) : p c = false := by
  induction s with
  | nil => exact absurd h (by simp)
  | cons a t ih =>
    by_cases ha : p a
    · rw [List.dropWhile_cons, if_pos ha] at h
      exact ih h
    · rw [List.dropWhile_cons, if_neg ha] at h
      cases h
      exact Bool.of_not_eq_true ha

/-- The `takeWhile` prefix of a `dropWhile` suffix (same predicate) is empty. -/
lemma takeWhile_dropWhile_nil (p : Char → Bool) (s : List Char) :
    (s.dropWhile p).takeWhile p = [] := by
  cases hd : s.dropWhile p with
  | nil => rfl
  | cons c rest =>
    rw [List.takeWhile_cons, if_neg]
    rw [dropWhile_head_false p s c rest hd]
    simp

/-! ## Run-length lemmas about the counting functions -/

lemma count_up_le (s : List Char) : count_up_items s ≤ s.length :=
  (List.takeWhile_sublist (l := s) (fun c => decide (c = '+'))).length_le

lemma count_down_le (s : List Char) : count_down_items s ≤ s.length :=
  (List.takeWhile_sublist (l := s) (fun c => decide (c = '-'))).length_le

/-- Decomposition of a stack at its leading UP run. -/
lemma up_decomp (s : List Char) :
    s = List.replicate (count_up_items s) '+' ++ s.dropWhile (fun c => decide (c = '+')) := by
  unfold count_up_items
  conv_lhs => rw [(List.takeWhile_append_dropWhile (fun c => decide (c = '+')) s).symm]
  rw [← takeWhile_eq_replicate '+' s]

/-- Decomposition of a stack at its leading DOWN run. -/
lemma down_decomp (s : List Char) :
    s = List.replicate (count_down_items s) '-' ++ s.dropWhile (fun c => decide (c = '-')) := by
  unfold count_down_items
  conv_lhs => rw [(List.takeWhile_append_dropWhile (fun c => decide (c = '-')) s).symm]
  rw [← takeWhile_eq_replicate '-' s]

lemma take_count_up (s : List Char) :
    s.take (count_up_items s) = List.replicate (count_up_items s) '+' := by
  unfold count_up_items
  rw [take_length_takeWhile]
  exact takeWhile_eq_replicate '+' s

lemma drop_count_up (s : List Char) :
    s.drop (count_up_items s) = s.dropWhile (fun c => decide (c = '+')) := by
  unfold count_up_items
  rw [drop_length_takeWhile]

lemma take_count_down (s : List Char) :
    s.take (count_down_items s) = List.replicate (count_down_items s) '-' := by
  unfold count_down_items
  rw [take_length_takeWhile]
  exact takeWhile_eq_replicate '-' s

lemma drop_count_down (s : List Char) :
    s.drop (count_down_items s) = s.dropWhile (fun c => decide (c = '-')) := by
  unfold count_down_items
  rw [drop_length_takeWhile]

/-- The UP count of a stack with a replicated UP prefix. -/
lemma count_up_rep_append (n : Nat) (t : List Char) :
    count_up_items (List.replicate n '+' ++ t) = n + count_up_items t := by
  induction n with
  | zero => simp [count_up_items]
  | succ m ih =>
    rw [List.replicate_succ, List.cons_append, count_up_items, List.takeWhile_cons]
    simp only [decide_true_eq_true, if_true, List.length_cons]
    rw [← count_up_items, ih]
    omega

/-- The DOWN count of a stack with a replicated DOWN prefix. -/
lemma count_down_rep_append (n : Nat) (t : List Char) :
    count_down_items (List.replicate n '-' ++ t) = n + count_down_items t := by
  induction n with
  | zero => simp [count_down_items]
  | succ m ih =>
    rw [List.replicate_succ, List.cons_append, count_down_items, List.takeWhile_cons]
    simp only [decide_true_eq_true, if_true, List.length_cons]
    rw [← count_down_items, ih]
    omega

/-- A stack whose whole length is its UP count is entirely UP. -/
lemma count_up_full (s : List Char) (h : count_up_items s = s.length) :
    s = List.replicate s.length '+' := by
  have hd := up_decomp s
  have hlen := congrArg List.length hd
  rw [List.length_append, List.length_replicate] at hlen
  have h0 : (s.dropWhile (fun c => decide (c = '+'))).length = 0 := by omega
  rw [List.length_eq_zero.mp h0, List.append_nil] at hd
  rw [← h]
  exact hd

/-- A stack has a positive UP count exactly when it starts with `'+'`. -/
lemma count_up_pos_iff (s : List Char) :
    1 ≤ count_up_items s ↔ s.head? = some '+' := by
  cases s with
  | nil => simp [count_up_items]
  | cons c t =>
    by_cases h : c = '+'
    · subst h
      simp [count_up_items, List.takeWhile_cons]
    · simp [count_up_items, List.takeWhile_cons, h]

/-- A stack has a positive DOWN count exactly when it starts with `'-'`. -/
lemma count_down_pos_iff (s : List Char) :
    1 ≤ count_down_items s ↔ s.head? = some '-' := by
  cases s with
  | nil => simp [count_down_items]
  | cons c t =>
    by_cases h : c = '-'
    · subst h
      simp [count_down_items, List.takeWhile_cons]
    · simp [count_down_items, List.takeWhile_cons, h]

/-! ## Legality lemmas -/

/-- Propositional form of `all_legal_chars`. -/
def LegalP (s : List Char) : Prop := ∀ c ∈ s, c = '+' ∨ c = '-'

lemma all_legal_iff (s : List Char) : all_legal_chars s = true ↔ LegalP s := by
  simp [all_legal_chars, LegalP, List.all_eq_true]

/-- A stack of legal symbols passes the validation regex. -/
lemma legal_stack_of_all_legal (s : List Char) (h : all_legal_chars s = true) :
    legal_stack s = true := by
  simp [legal_stack, h]

lemma spec_invert_legal (c : Char) : spec_invert c = '+' ∨ spec_invert c = '-' := by
  unfold spec_invert
  by_cases h : c = '+' <;> simp [h]

lemma spec_invert_plus : spec_invert '+' = '-' := rfl

lemma spec_invert_minus : spec_invert '-' = '+' := rfl

/-! ## The flip operation -/

/-- On legal characters, `flip_char` succeeds and computes `spec_invert`. -/
lemma flip_char_ok (c : Char) (h : c = '+' ∨ c = '-') :
    flip_char c = .ok (spec_invert c) := by
  rcases h with h | h <;> subst h <;> rfl

/-- On legal stacks, `flip_chars` succeeds and maps `spec_invert`. -/
lemma flip_chars_ok (s : List Char) (h : LegalP s) :
    flip_chars s = .ok (s.map spec_invert) := by
  induction s with
  | nil => rfl
  | cons c t ih =>
    rw [flip_chars, flip_char_ok c (h c (by simp)), ih fun x hx => h x (by simp [hx])]
    rfl

/-- On legal stacks, `stack_flip` succeeds and computes the specification's
flip operation. -/
lemma stack_flip_ok (k : Nat) (s : List Char) (h : LegalP s) :
    stack_flip k s = .ok (spec_flip k s) := by
  have hleg : LegalP (s.take k).reverse := by
    intro c hc
    exact h c (List.take_subset k s (List.mem_reverse.mp hc))
  rw [stack_flip, reverse_items, split_items,
    flip_chars_ok ((s.take k).reverse) hleg]
  rfl

/-- Flipping preserves the stack length. -/
lemma spec_flip_length (k : Nat) (s : List Char) :
    (spec_flip k s).length = s.length := by
  simp [spec_flip]
  omega

/-- Flipping a legal stack yields a legal stack. -/
lemma spec_flip_legal (k : Nat) (s : List Char) (h : LegalP s) :
    LegalP (spec_flip k s) := by
  intro c hc
  rcases List.mem_append.mp hc with hm | hm
  · obtain ⟨x, _, hx⟩ := List.mem_map.mp hm
    exact hx ▸ spec_invert_legal x
  · exact h c (List.drop_subset k s hm)

/-! ## One iteration of the greedy loop -/

lemma spec_up_run_eq (s : List Char) : spec_up_run s = count_up_items s := rfl

lemma spec_down_run_eq (s : List Char) : spec_down_run s = count_down_items s := rfl

/-- One full iteration of the spec's steps 3-4 as a state transformation:
flip the leading UP run, then flip the new leading DOWN run. -/
def greedy_step (s : List Char) : List Char :=
  spec_flip (spec_down_run (spec_flip (spec_up_run s) s)) (spec_flip (spec_up_run s) s)

/-- On a legal stack, the embedded loop body succeeds and computes exactly
one iteration of the spec's greedy loop. -/
lemma loop_body_ok (s : List Char) (hleg : LegalP s) :
    loop_body s = .ok (greedy_step s) := by
  have h1 := stack_flip_ok (count_up_items s) s hleg
  have h2 := stack_flip_ok (count_down_items (spec_flip (count_up_items s) s))
    (spec_flip (count_up_items s) s) (spec_flip_legal _ _ hleg)
  simp only [loop_body, h1, h2]
  rfl

/-- An iteration of the greedy loop on a legal, not yet finished stack keeps
the stack legal, preserves its length, and grows the leading UP run by at
least one element. -/
lemma greedy_step_char (s : List Char) (hleg : LegalP s)
    (hlt : count_up_items s < s.length) :
    LegalP (greedy_step s) ∧ (greedy_step s).length = s.length ∧
      count_up_items s + 1 ≤ count_up_items (greedy_step s) := by
  have hdecomp := up_decomp s
  have hlen := congrArg List.length hdecomp
  rw [List.length_append, List.length_replicate] at hlen
  have hne : s.dropWhile (fun c => decide (c = '+')) ≠ [] := by
    intro h
    rw [h] at hlen
    simp at hlen
    omega
  obtain ⟨c, rest, hcr⟩ := List.exists_cons_of_ne_nil hne
  have hcp := dropWhile_head_false (fun c => decide (c = '+')) s c rest hcr
  have hcmem : c ∈ s := by
    rw [hdecomp, hcr]
    exact List.mem_append_right _ (List.mem_cons_self c rest)
  have hc : c = '-' := by
    rcases hleg c hcmem with h | h
    · rw [h] at hcp
      simp at hcp
    · exact h
  have hs1 : spec_flip (count_up_items s) s =
      List.replicate (count_up_items s) '-' ++ s.dropWhile (fun c => decide (c = '+')) := by
    rw [spec_flip, take_count_up, drop_count_up, List.reverse_replicate, List.map_replicate,
      spec_invert_plus]
  have hdw_down : 1 ≤ count_down_items (s.dropWhile (fun c => decide (c = '+'))) := by
    rw [count_down_pos_iff, hcr, hc]
    rfl
  have hd : count_down_items (spec_flip (count_up_items s) s) =
      count_up_items s + count_down_items (s.dropWhile (fun c => decide (c = '+'))) := by
    rw [hs1, count_down_rep_append]
  have hs2 : greedy_step s =
      List.replicate (count_down_items (spec_flip (count_up_items s) s)) '+' ++
        (spec_flip (count_up_items s) s).dropWhile (fun c => decide (c = '-')) := by
    rw [greedy_step, spec_up_run_eq, spec_down_run_eq, spec_flip, take_count_down,
      drop_count_down, List.reverse_replicate, List.map_replicate, spec_invert_minus]
  refine ⟨spec_flip_legal _ _ (spec_flip_legal _ _ hleg), ?_, ?_⟩
  · show (greedy_step s).length = s.length
    simp only [greedy_step, spec_flip_length]
  · have hup2 : count_up_items (greedy_step s) =
        count_down_items (spec_flip (count_up_items s) s) +
          count_up_items ((spec_flip (count_up_items s) s).dropWhile (fun c => decide (c = '-'))) := by
      rw [hs2, count_up_rep_append]
    omega

/-! ## The initial conditional flip -/

/-- On a legal nonempty stack the initial conditional flip succeeds, counts
at most one flip, leaves a stack of the same length starting with an UP
element, and is exactly the spec's step 2. -/
lemma initial_flip_ok (s : List Char) (hleg : LegalP s) (hne : s ≠ []) :
    ∃ fc s1, initial_flip s = .ok (fc, s1) ∧ LegalP s1 ∧ s1.length = s.length ∧
      s1.head? = some '+' ∧
      fc = (if s.head? = some '-' then 1 else 0) ∧
      s1 = (if s.head? = some '-' then spec_flip (spec_down_run s) s else s) := by
  obtain ⟨c, t, rfl⟩ := List.exists_cons_of_ne_nil hne
  by_cases hc : c = '-'
  · subst hc
    have hdpos : 1 ≤ count_down_items ('-' :: t) := by
      rw [count_down_pos_iff]
      rfl
    have hs1 : spec_flip (count_down_items ('-' :: t)) ('-' :: t) =
        List.replicate (count_down_items ('-' :: t)) '+' ++
          ('-' :: t).dropWhile (fun c => decide (c = '-')) := by
      rw [spec_flip, take_count_down, drop_count_down, List.reverse_replicate,
        List.map_replicate, spec_invert_minus]
    refine ⟨1, spec_flip (count_down_items ('-' :: t)) ('-' :: t), ?_,
      spec_flip_legal _ _ hleg, spec_flip_length _ _, ?_, ?_, ?_⟩
    · simp [initial_flip, first_down, stack_flip_ok _ _ hleg]
    · rw [hs1]
      obtain ⟨m, hm⟩ : ∃ m, count_down_items ('-' :: t) = m + 1 :=
        ⟨count_down_items ('-' :: t) - 1, by omega⟩
      rw [hm, List.replicate_succ]
      rfl
    · simp
    · simp [spec_down_run_eq]
  · have hcp : c = '+' := by
      rcases hleg c (List.mem_cons_self c t) with h | h
      · exact h
      · exact absurd h hc
    subst hcp
    refine ⟨0, '+' :: t, ?_, hleg, rfl, rfl, ?_, ?_⟩
    · simp [initial_flip, first_down]
    · simp
    · simp

/-! ## The loop: termination and simulation -/

lemma all_up_false (s : List Char) (h : count_up_items s ≠ s.length) :
    all_up (count_up_items s) s = false := by
  simp only [all_up, decide_eq_false_iff_not]
  exact fun hh => h hh.symm

/-- When the whole stack is UP, the loop returns at once, at any fuel. -/
lemma fix_loop_finished (fuel flip_count : Nat) (s : List Char)
    (h : count_up_items s = s.length) :
    fix_loop fuel flip_count s = some (.ok (flip_count, s)) := by
  have hb : all_up (count_up_items s) s = true := by simp [all_up, h]
  cases fuel <;> simp [fix_loop, hb]

/-- When the stack is not yet all UP, one loop body runs and the loop
continues on the transformed stack with two more flips counted. -/
lemma fix_loop_step (fuel flip_count : Nat) (s : List Char) (hleg : LegalP s)
    (h : count_up_items s ≠ s.length) :
    fix_loop (fuel + 1) flip_count s = fix_loop fuel (flip_count + 2) (greedy_step s) := by
  have hb := all_up_false s h
  simp only [fix_loop, hb, Bool.false_eq_true, if_false, loop_body_ok s hleg]

/-- Fuel sufficiency: on a legal stack, `length - up_count` units of fuel
let the loop terminate, producing the all-UP stack of the same length and
at most two flips per fuel unit. -/
lemma fix_loop_total (fuel : Nat) :
    ∀ s flip_count, LegalP s → s.length - count_up_items s ≤ fuel →
      ∃ k, k ≤ 2 * fuel ∧
        fix_loop fuel flip_count s =
          some (.ok (flip_count + k, List.replicate s.length '+')) := by
  induction fuel with
  | zero =>
    intro s fc hleg hf
    have hle := count_up_le s
    have hfull : count_up_items s = s.length := by omega
    refine ⟨0, by omega, ?_⟩
    rw [fix_loop_finished 0 fc s hfull, Nat.add_zero, ← count_up_full s hfull]
  | succ fuel ih =>
    intro s fc hleg hf
    by_cases hfull : count_up_items s = s.length
    · refine ⟨0, by omega, ?_⟩
      rw [fix_loop_finished _ fc s hfull, Nat.add_zero, ← count_up_full s hfull]
    · have hlt : count_up_items s < s.length := lt_of_le_of_ne (count_up_le s) hfull
      obtain ⟨hleg2, hlen2, hprog⟩ := greedy_step_char s hleg hlt
      have hf2 : (greedy_step s).length - count_up_items (greedy_step s) ≤ fuel := by
        rw [hlen2]
        omega
      obtain ⟨k, hk, heq⟩ := ih (greedy_step s) (fc + 2) hleg2 hf2
      refine ⟨k + 2, by omega, ?_⟩
      rw [fix_loop_step fuel fc s hleg hfull, heq, hlen2]
      have harith : fc + 2 + k = fc + (k + 2) := by omega
      rw [harith]

/-- Simulation: at equal fuel, on a legal stack, the embedded loop and the
spec's loop either both diverge or both return, the embedded flip count
being the incoming count plus the spec's. -/
lemma fix_loop_sim (fuel : Nat) :
    ∀ s flip_count, LegalP s →
      (fix_loop fuel flip_count s = none ∧ spec_greedy_loop fuel s = none) ∨
      (∃ k t, fix_loop fuel flip_count s = some (.ok (flip_count + k, t)) ∧
        spec_greedy_loop fuel s = some k) := by
  induction fuel with
  | zero =>
    intro s fc hleg
    by_cases hfull : count_up_items s = s.length
    · right
      refine ⟨0, s, ?_, ?_⟩
      · rw [fix_loop_finished 0 fc s hfull, Nat.add_zero]
      · simp [spec_greedy_loop, spec_up_run_eq, hfull]
    · left
      have hb := all_up_false s hfull
      constructor
      · simp [fix_loop, hb]
      · simp [spec_greedy_loop, spec_up_run_eq, hfull]
  | succ fuel ih =>
    intro s fc hleg
    by_cases hfull : count_up_items s = s.length
    · right
      refine ⟨0, s, ?_, ?_⟩
      · rw [fix_loop_finished _ fc s hfull, Nat.add_zero]
      · simp [spec_greedy_loop, spec_up_run_eq, hfull]
    · have hstep := fix_loop_step fuel fc s hleg hfull
      have hspec : spec_greedy_loop (fuel + 1) s =
          (spec_greedy_loop fuel (greedy_step s)).map (fun k => k + 2) := by
        rw [spec_greedy_loop, if_neg]
        · rfl
        · rw [spec_up_run_eq]
          exact hfull
      have hleg2 : LegalP (greedy_step s) := spec_flip_legal _ _ (spec_flip_legal _ _ hleg)
      rcases ih (greedy_step s) (fc + 2) hleg2 with ⟨h1, h2⟩ | ⟨k, t, h1, h2⟩
      · left
        constructor
        · rw [hstep, h1]
        · rw [hspec, h2]
          rfl
      · right
        refine ⟨k + 2, t, ?_, ?_⟩
        · rw [hstep, h1]
          have harith : fc + 2 + k = fc + (k + 2) := by omega
          rw [harith]
        · rw [hspec, h2]
          rfl

/-! ## Whole-run lemmas -/

/-- On a legal nonempty stack, `fix_stack_full` terminates within its fuel,
returning at most `2 * length + 1` flips and the all-UP stack of the
input's length. -/
lemma fix_stack_full_total (s : List Char) (hleg : LegalP s) (hne : s ≠ []) :
    ∃ k, k ≤ 2 * s.length + 1 ∧
      fix_stack_full s = some (.ok (k, List.replicate s.length '+')) := by
  obtain ⟨fc, s1, hinit, hleg1, hlen1, hhead1, hfc, hs1⟩ := initial_flip_ok s hleg hne
  obtain ⟨k, hk, hloop⟩ := fix_loop_total s1.length s1 fc hleg1 (by omega)
  have hfc1 : fc ≤ 1 := by
    rw [hfc]
    split <;> omega
  refine ⟨fc + k, by omega, ?_⟩
  have hloop2 : fix_loop s1.length fc s1 =
      some (.ok (fc + k, List.replicate s.length '+')) := by
    rw [hloop, hlen1]
  simp only [fix_stack_full, legal_stack_of_all_legal s ((all_legal_iff s).mpr hleg),
    if_true, hinit, hloop2]

/-- On a legal nonempty stack, `fix_stack` returns a flip count bounded
linearly by the stack length. -/
lemma fix_stack_total (s : List Char) (hleg : LegalP s) (hne : s ≠ []) :
    ∃ k, k ≤ 2 * s.length + 1 ∧ fix_stack s = some (.ok k) := by
  obtain ⟨k, hk, h⟩ := fix_stack_full_total s hleg hne
  refine ⟨k, hk, ?_⟩
  rw [fix_stack, h]
  rfl

/-- When the validation regex rejects the stack, `fix_stack` raises the
Illegal-Character condition without performing any flip. -/
lemma fix_stack_rejected (s : List Char) (h : legal_stack s = false) :
    fix_stack s =
      some (.error (.characterError ("Not a legal stack: " ++ String.mk s))) := by
  rw [fix_stack, fix_stack_full, if_neg]
  · rfl
  · simp [h]

/-! ## Involutivity of the flip operation -/

/-- On a legal stack, flipping the same prefix twice is the identity. -/
lemma spec_flip_involution (k : Nat) (s : List Char) (hleg : LegalP s)
    (hk : k ≤ s.length) : spec_flip k (spec_flip k s) = s := by
  have hlenA : ((s.take k).reverse.map spec_invert).length = k := by
    simp [List.length_take]
    omega
  have htake : (spec_flip k s).take k = (s.take k).reverse.map spec_invert := by
    have h := List.take_left ((s.take k).reverse.map spec_invert) (s.drop k)
    rw [hlenA] at h
    rw [spec_flip]
    exact h
  have hdrop : (spec_flip k s).drop k = s.drop k := by
    have h := List.drop_left ((s.take k).reverse.map spec_invert) (s.drop k)
    rw [hlenA] at h
    rw [spec_flip]
    exact h
  have hAA : (((s.take k).reverse.map spec_invert).reverse.map spec_invert) = s.take k := by
    have h1 : ((s.take k).reverse.map spec_invert).reverse =
        (s.take k).map spec_invert := by
      rw [← List.map_reverse, List.reverse_reverse]
    rw [h1, List.map_map]
    have hcong : ∀ c ∈ s.take k, (spec_invert ∘ spec_invert) c = id c := by
      intro c hc
      rcases hleg c (List.take_subset k s hc) with h | h <;> subst h <;> rfl
    rw [List.map_congr_left hcong, List.map_id]
  calc spec_flip k (spec_flip k s)
      = ((spec_flip k s).take k).reverse.map spec_invert ++ (spec_flip k s).drop k := rfl
    _ = (((s.take k).reverse.map spec_invert).reverse.map spec_invert) ++ s.drop k := by
        rw [htake, hdrop]
    _ = s.take k ++ s.drop k := by rw [hAA]
    _ = s := List.take_append_drop k s

/-! ## The batch-mode loop stops at the declared count -/

/-- Lines past the declared count are never read: processing a line list is
the same as processing only its first `count - caseNum` lines. -/
lemma process_lines_take (count : Nat) :
    ∀ (lines : List (List Char)) (caseNum : Nat),
      process_lines count caseNum lines =
        process_lines count caseNum (lines.take (count - caseNum)) := by
  intro lines
  induction lines with
  | nil =>
    intro caseNum
    rw [List.take_nil]
  | cons l rest ih =>
    intro caseNum
    by_cases h : count < caseNum + 1
    · have h0 : count - caseNum = 0 := by omega
      rw [h0, List.take_zero]
      simp only [process_lines, if_pos h]
    · obtain ⟨m, hm⟩ : ∃ m, count - caseNum = m + 1 := ⟨count - caseNum - 1, by omega⟩
      have hm2 : count - (caseNum + 1) = m := by omega
      rw [hm, List.take_succ_cons]
      simp only [process_lines, if_neg h]
      cases hfs : fix_stack (strip l) with
      | none => rfl
      | some r =>
        cases r with
        | error e => rfl
        | ok flips =>
          rw [ih (caseNum + 1), hm2]

/-! ## Claim theorems -/

/-- C1: on every non-empty stack over the two legal symbols, `fix_stack`
returns a flip count, and that count is exactly the one computed by the
spec's greedy algorithm `spec_greedy`: one conditional flip of the maximal
leading DOWN run when the first element is DOWN, then, while the leading UP
run `u` is shorter than the stack, a flip of prefix `u` followed by a flip
of the new maximal leading DOWN run, each iteration counting two flips, and
the accumulated count returned once `u` equals the length. -/
theorem fix_stack_refines_spec_greedy (s : List Char)
    (hleg : all_legal_chars s = true) (hne : s ≠ []) :
    ∃ k, fix_stack s = some (Except.ok k) ∧ spec_greedy s = some k := by
  have hlegP := (all_legal_iff s).mp hleg
  obtain ⟨fc, s1, hinit, hleg1, hlen1, hhead1, hfc, hs1⟩ := initial_flip_ok s hlegP hne
  obtain ⟨k', hk', hloop⟩ := fix_loop_total s1.length s1 fc hleg1 (by omega)
  rcases fix_loop_sim s1.length s1 fc hleg1 with ⟨h1, _⟩ | ⟨k, t, h1, h2⟩
  · rw [hloop] at h1
    exact absurd h1 (by simp)
  · refine ⟨fc + k, ?_, ?_⟩
    · have hfull : fix_stack_full s = some (.ok (fc + k, t)) := by
        simp only [fix_stack_full, legal_stack_of_all_legal s hleg, if_true, hinit, h1]
      rw [fix_stack, hfull]
      rfl
    · rw [spec_greedy]
      by_cases hhd : s.head? = some '-'
      · rw [if_pos hhd]
        have hfc1 : fc = 1 := by rw [hfc, if_pos hhd]
        have hs1e : s1 = spec_flip (spec_down_run s) s := by rw [hs1, if_pos hhd]
        rw [← hs1e, ← hlen1, h2]
        have harith : fc + k = k + 1 := by omega
        rw [harith]
        rfl
      · rw [if_neg hhd]
        have hfc0 : fc = 0 := by rw [hfc, if_neg hhd]
        have hs1e : s1 = s := by rw [hs1, if_neg hhd]
        rw [← hlen1, ← hs1e, h2]
        have harith : fc + k = k := by omega
        rw [harith]

/-- C1 witness: the theorem applied to the concrete stack `"-+"`. -/
theorem fix_stack_refines_spec_greedy_witness :
    ∃ k, fix_stack ['-', '+'] = some (Except.ok k) ∧ spec_greedy ['-', '+'] = some k :=
  fix_stack_refines_spec_greedy ['-', '+'] (by decide) (by decide)

/-- C2: on a stack of legal symbols and a prefix length `1 ≤ k ≤ length`,
`stack_flip` returns the reverse of the first `k` elements with each
element's orientation inverted, concatenated with the unchanged remaining
elements. -/
theorem stack_flip_matches_spec (s : List Char) (k : Nat)
    (hleg : all_legal_chars s = true) (_h1 : 1 ≤ k) (_h2 : k ≤ s.length) :
    stack_flip k s = .ok (((s.take k).reverse.map spec_invert) ++ s.drop k) :=
  stack_flip_ok k s ((all_legal_iff s).mp hleg)

/-- C2 witness: the theorem applied to the stack `"--+"` with `k = 2`. -/
theorem stack_flip_matches_spec_witness :
    stack_flip 2 ['-', '-', '+'] =
      .ok (((['-', '-', '+'].take 2).reverse.map spec_invert) ++ ['-', '-', '+'].drop 2) :=
  stack_flip_matches_spec ['-', '-', '+'] 2 (by decide) (by decide) (by decide)

/-- C3: the input `"++\n"` contains the character `'\n'`, which is not one
of the two legal symbols, yet it passes the validation regex (in Python,
`$` also matches just before a trailing newline), and `fix_stack` then
loops forever instead of raising the Illegal-Character condition: at every
fuel the loop is still running, because flipping the leading UP run of
length 2 and then the leading DOWN run of length 2 restores the same stack
while the trailing `'\n'` keeps the UP run shorter than the length.  The
claim's guaranteed `CharacterError` is therefore not raised on this input;
the code hangs. -/
theorem fix_stack_trailing_newline_diverges :
    ('\n' ∈ ['+', '+', '\n'] ∧ ¬('\n' = '+' ∨ '\n' = '-')) ∧
    legal_stack ['+', '+', '\n'] = true ∧
    (∀ fuel flip_count, fix_loop fuel flip_count ['+', '+', '\n'] = none) ∧
    fix_stack ['+', '+', '\n'] = none := by
  refine ⟨by decide, by rfl, ?_, by rfl⟩
  intro fuel
  induction fuel with
  | zero =>
    intro flip_count
    rfl
  | succ fuel ih =>
    intro flip_count
    exact
      (rfl :
        fix_loop (fuel + 1) flip_count ['+', '+', '\n'] =
          fix_loop fuel (flip_count + 2) ['+', '+', '\n']).trans (ih (flip_count + 2))

/-- C4: on every non-empty stack over the two legal symbols, `fix_stack`
terminates with a non-negative flip count; the count is bounded by
`2 * length + 1`, reflecting the loop's linear iteration bound (one fuel
unit per element of the stack, two flips per iteration, plus the initial
conditional flip). -/
theorem fix_stack_terminates (s : List Char)
    (hleg : all_legal_chars s = true) (hne : s ≠ []) :
    ∃ k : Nat, k ≤ 2 * s.length + 1 ∧ fix_stack s = some (Except.ok k) :=
  fix_stack_total s ((all_legal_iff s).mp hleg) hne

/-- C4 witness: the theorem applied to the concrete stack `"-+"`. -/
theorem fix_stack_terminates_witness :
    ∃ k : Nat, k ≤ 2 * (['-', '+'] : List Char).length + 1 ∧
      fix_stack ['-', '+'] = some (Except.ok k) :=
  fix_stack_terminates ['-', '+'] (by decide) (by decide)

/-- C5: on the batch stream `"2\n--+--+\n-+-+-+\n"`, batch mode emits
exactly the two lines `Case #1: 3` and `Case #2: 5`, whose counts are the
greedy Reducer's results for the two stacks; and, for any declared count,
processing the lines after the first is the same as processing only the
first `count` of them, so lines beyond the declared count produce no
output. -/
theorem process_stream_example :
    fix_stack ("--+--+".data) = some (Except.ok 3) ∧
    fix_stack ("-+-+-+".data) = some (Except.ok 5) ∧
    process_input_data_stream ["2\n".data, "--+--+\n".data, "-+-+-+\n".data] =
      some (["Case #1: 3".data, "Case #2: 5".data], none) ∧
    (∀ count lines, process_lines count 0 lines =
      process_lines count 0 (lines.take count)) := by
  refine ⟨rfl, rfl, rfl, ?_⟩
  intro count lines
  have h := process_lines_take count lines 0
  rw [Nat.sub_zero] at h
  exact h

/-- C6: an all-UP stack of any length at least 1 needs no flips and its
count is 0; moreover every successful run on a legal non-empty stack ends
with the all-UP stack of the input's length, and re-running the Reducer on
that terminal stack returns 0. -/
theorem fix_stack_all_up_zero :
    (∀ n, 1 ≤ n → fix_stack (List.replicate n '+') = some (Except.ok 0)) ∧
    (∀ s, all_legal_chars s = true → s ≠ [] →
      ∃ k, fix_stack_full s = some (Except.ok (k, List.replicate s.length '+')) ∧
        fix_stack (List.replicate s.length '+') = some (Except.ok 0)) := by
  have hmain : ∀ n, 1 ≤ n → fix_stack (List.replicate n '+') = some (Except.ok 0) := by
    intro n hn
    have hlegP : LegalP (List.replicate n '+') :=
      fun c hc => Or.inl (List.eq_of_mem_replicate hc)
    have hcu : count_up_items (List.replicate n '+') = n := by
      have h := count_up_rep_append n []
      rw [List.append_nil] at h
      have h0 : count_up_items ([] : List Char) = 0 := rfl
      omega
    obtain ⟨m, hm⟩ : ∃ m, n = m + 1 := ⟨n - 1, by omega⟩
    have hfd : first_down (List.replicate n '+') = some false := by
      rw [hm, List.replicate_succ]
      rfl
    have hinit : initial_flip (List.replicate n '+') = .ok (0, List.replicate n '+') := by
      simp only [initial_flip, hfd]
    have hloop := fix_loop_finished (List.replicate n '+').length 0 (List.replicate n '+')
      (by rw [hcu, List.length_replicate])
    have hleg2 : legal_stack (List.replicate n '+') = true :=
      legal_stack_of_all_legal _ ((all_legal_iff _).mpr hlegP)
    have hfull : fix_stack_full (List.replicate n '+') =
        some (.ok (0, List.replicate n '+')) := by
      simp only [fix_stack_full, hleg2, if_true, hinit, hloop]
    rw [fix_stack, hfull]
    rfl
  refine ⟨hmain, ?_⟩
  intro s hleg hne
  obtain ⟨k, _, hk⟩ := fix_stack_full_total s ((all_legal_iff s).mp hleg) hne
  refine ⟨k, hk, hmain s.length ?_⟩
  cases s with
  | nil => exact absurd rfl hne
  | cons c t => simp

/-- C6 witness: the first part of the theorem at the all-UP stack `"++"`. -/
theorem fix_stack_all_up_zero_witness :
    fix_stack (List.replicate 2 '+') = some (Except.ok 0) :=
  fix_stack_all_up_zero.1 2 (by decide)

/-- C7: on an all-DOWN stack of any length at least 1, the initial
conditional step fires: the first item is DOWN, the maximal leading DOWN run
is the whole stack, the single flip of that prefix turns the stack all UP,
and the run returns flip count 1 with that all-UP stack (so the loop body,
which would add two flips per iteration, never ran). -/
theorem fix_stack_all_down_one (n : Nat) (hn : 1 ≤ n) :
    first_down (List.replicate n '-') = some true ∧
    count_down_items (List.replicate n '-') = n ∧
    stack_flip n (List.replicate n '-') = .ok (List.replicate n '+') ∧
    fix_stack_full (List.replicate n '-') =
      some (Except.ok (1, List.replicate n '+')) := by
  have hlegP : LegalP (List.replicate n '-') :=
    fun c hc => Or.inr (List.eq_of_mem_replicate hc)
  have hcd : count_down_items (List.replicate n '-') = n := by
    have h := count_down_rep_append n []
    rw [List.append_nil] at h
    have h0 : count_down_items ([] : List Char) = 0 := rfl
    omega
  obtain ⟨m, hm⟩ : ∃ m, n = m + 1 := ⟨n - 1, by omega⟩
  have hfd : first_down (List.replicate n '-') = some true := by
    rw [hm, List.replicate_succ]
    rfl
  have ht : (List.replicate n '-').take n = List.replicate n '-' := by
    have h := List.take_length (List.replicate n '-')
    rwa [List.length_replicate] at h
  have hd : (List.replicate n '-').drop n = [] := by
    have h := List.drop_length (List.replicate n '-')
    rwa [List.length_replicate] at h
  have hflip : stack_flip n (List.replicate n '-') = .ok (List.replicate n '+') := by
    rw [stack_flip_ok n _ hlegP, spec_flip, ht, hd, List.reverse_replicate,
      List.map_replicate, spec_invert_minus, List.append_nil]
  have hinit : initial_flip (List.replicate n '-') = .ok (1, List.replicate n '+') := by
    simp only [initial_flip, hfd, hcd, hflip]
  have hcu : count_up_items (List.replicate n '+') = n := by
    have h := count_up_rep_append n []
    rw [List.append_nil] at h
    have h0 : count_up_items ([] : List Char) = 0 := rfl
    omega
  have hloop := fix_loop_finished (List.replicate n '+').length 1 (List.replicate n '+')
    (by rw [hcu, List.length_replicate])
  have hleg2 : legal_stack (List.replicate n '-') = true :=
    legal_stack_of_all_legal _ ((all_legal_iff _).mpr hlegP)
  refine ⟨hfd, hcd, hflip, ?_⟩
  simp only [fix_stack_full, hleg2, if_true, hinit, hloop]

/-- C7 witness: the theorem at the all-DOWN stack `"--"`. -/
theorem fix_stack_all_down_one_witness :
    first_down (List.replicate 2 '-') = some true ∧
    count_down_items (List.replicate 2 '-') = 2 ∧
    stack_flip 2 (List.replicate 2 '-') = .ok (List.replicate 2 '+') ∧
    fix_stack_full (List.replicate 2 '-') =
      some (Except.ok (1, List.replicate 2 '+')) :=
  fix_stack_all_down_one 2 (by decide)

/-- C8: on a legal non-empty stack, the initial conditional flip runs at
most once (it contributes at most one flip, before the loop), and after it
the stack begins with an UP element, equivalently its leading UP-run length
is at least 1; moreover every loop body started at a state satisfying this
invariant re-establishes it, so the stack begins with UP at every
evaluation of the loop's termination test. -/
theorem fix_stack_loop_invariant (s : List Char)
    (hleg : all_legal_chars s = true) (hne : s ≠ []) :
    (∃ fc s1, initial_flip s = .ok (fc, s1) ∧ fc ≤ 1 ∧ s1.head? = some '+' ∧
      1 ≤ count_up_items s1) ∧
    (∀ t, all_legal_chars t = true → t.head? = some '+' →
      count_up_items t ≠ t.length →
      ∃ t2, loop_body t = .ok t2 ∧ t2.head? = some '+' ∧
        1 ≤ count_up_items t2) := by
  constructor
  · obtain ⟨fc, s1, hinit, _, _, hhead, hfc, _⟩ :=
      initial_flip_ok s ((all_legal_iff s).mp hleg) hne
    refine ⟨fc, s1, hinit, ?_, hhead, (count_up_pos_iff s1).mpr hhead⟩
    rw [hfc]
    split <;> omega
  · intro t htleg hthead htne
    have htlegP := (all_legal_iff t).mp htleg
    have hlt : count_up_items t < t.length := lt_of_le_of_ne (count_up_le t) htne
    obtain ⟨_, _, hprog⟩ := greedy_step_char t htlegP hlt
    have hpos : 1 ≤ count_up_items (greedy_step t) := by omega
    exact ⟨greedy_step t, loop_body_ok t htlegP, (count_up_pos_iff _).mp hpos, hpos⟩

/-- C8 witness: the theorem applied to the concrete stack `"-+"`. -/
theorem fix_stack_loop_invariant_witness :
    (∃ fc s1, initial_flip ['-', '+'] = .ok (fc, s1) ∧ fc ≤ 1 ∧
      s1.head? = some '+' ∧ 1 ≤ count_up_items s1) ∧
    (∀ t, all_legal_chars t = true → t.head? = some '+' →
      count_up_items t ≠ t.length →
      ∃ t2, loop_body t = .ok t2 ∧ t2.head? = some '+' ∧
        1 ≤ count_up_items t2) :=
  fix_stack_loop_invariant ['-', '+'] (by decide) (by decide)

/-- C9: on a stack of legal symbols and any prefix length `k ≤ length`,
`stack_flip` at `k` is an involution: flipping twice returns the original
stack, and the flipped stack has the same length as the input. -/
theorem stack_flip_involutive (s : List Char) (k : Nat)
    (hleg : all_legal_chars s = true) (hk : k ≤ s.length) :
    ∃ t, stack_flip k s = .ok t ∧ t.length = s.length ∧ stack_flip k t = .ok s := by
  have hlegP := (all_legal_iff s).mp hleg
  refine ⟨spec_flip k s, stack_flip_ok k s hlegP, spec_flip_length k s, ?_⟩
  rw [stack_flip_ok k (spec_flip k s) (spec_flip_legal k s hlegP),
    spec_flip_involution k s hlegP hk]

/-- C9 witness: the theorem applied to the stack `"-+"` with `k = 1`. -/
theorem stack_flip_involutive_witness :
    ∃ t, stack_flip 1 ['-', '+'] = .ok t ∧ t.length = (['-', '+'] : List Char).length ∧
      stack_flip 1 t = .ok ['-', '+'] :=
  stack_flip_involutive ['-', '+'] 1 (by decide) (by decide)

/-- C10: on legal non-empty stacks no exception escapes `fix_stack` (in
particular the out-of-bounds `IndexError` branch of `first_down` is
unreachable); the empty string, however, passes the validation regex (the
regex accepts the empty sequence) and then hits the out-of-bounds access of
`items[0]` in `first_down`, an `IndexError`, which is not the
Illegal-Character condition. -/
theorem fix_stack_access_safety :
    (∀ s, all_legal_chars s = true → s ≠ [] →
      ∀ e, fix_stack s ≠ some (Except.error e)) ∧
    legal_stack ([] : List Char) = true ∧
    fix_stack ([] : List Char) = some (Except.error PyError.indexError) ∧
    (∀ msg, PyError.indexError ≠ PyError.characterError msg) := by
  refine ⟨?_, rfl, rfl, fun msg h => PyError.noConfusion h⟩
  intro s hleg hne e hcontra
  obtain ⟨k, _, hk⟩ := fix_stack_total s ((all_legal_iff s).mp hleg) hne
  rw [hk] at hcontra
  exact Except.noConfusion (Option.some.inj hcontra)

/-- C10 witness: the first part of the theorem at the stack `"+"` and the
IndexError value. -/
theorem fix_stack_access_safety_witness :
    fix_stack ['+'] ≠ some (Except.error PyError.indexError) :=
  fix_stack_access_safety.1 ['+'] (by decide) (by decide) PyError.indexError
